import Mathlib

/-!
Verification of the expense-tracker page (`src/unnamed/part_000`).

The page keeps an in-memory list of expense records (newest first),
mutated by `handleAdd` and `handleDelete`, derives a per-date filtered
view `expensesForSelectedDate` and its sum `totalForSelectedDate`, and
persists the list to a single browser-storage slot as JSON.

Embedding choices:
* JavaScript numbers are modelled as exact rationals (`ℚ`); `Math.round`
  becomes `jsRound` (round half towards positive infinity).
* The amount form field goes through `parseFloat` + `isFinite` in the
  source; we model the parse result as `Option ℚ`, `none` standing for a
  non-finite parse (`NaN` or infinite), which the source rejects.
* `String.prototype.trim` is modelled by `jsTrim`, a structural
  recursion over the character list (so that it evaluates by `decide`).
* `Number(id)` used by the sort comparator is modelled by `strToNum`,
  a decimal-digit parser; the sort-order claims are stated for stores
  whose ids are decimal digit strings, which is what `String(Date.now())`
  produces.
* The storage slot is modelled at the JSON-value level (`JValue`,
  `RawSlot`): `RawSlot.absent` is a missing/empty slot, `RawSlot.malformed`
  is content on which `JSON.parse` throws, and `RawSlot.value v` is content
  parsing to the JSON value `v`.
-/

/-- One expense record, mirroring the `Expense` type of the source:
`id`, `date` (YYYY-MM-DD), `amount`, `category`, `note`. -/
structure Expense where
  id : String
  date : String
  amount : ℚ
  category : String
  note : String
deriving DecidableEq

/-- JavaScript `Math.round`: nearest integer, halves towards `+∞`. -/
def jsRound (x : ℚ) : ℤ := ⌊x + 1 / 2⌋

/-- Characters treated as whitespace by JavaScript `trim`. -/
def jsWhitespace (c : Char) : Bool :=
  c = ' ' || c = '\t' || c = '\n' || c = '\r' || c = '\x0b' || c = '\x0c'

/-- JavaScript `String.prototype.trim`: drop whitespace at both ends. -/
def jsTrim (s : String) : String :=
  ⟨(((s.data.dropWhile jsWhitespace).reverse).dropWhile jsWhitespace).reverse⟩

/-- The record built by `handleAdd` from a finite positive parsed amount:
`id = String(Date.now())`, amount rounded to cents, category trimmed and
defaulted to "General" when empty, note trimmed. -/
def mkExpense (now : ℕ) (q : ℚ) (date category note : String) : Expense :=
  { id := toString now
    date := date
    amount := (jsRound (q * 100) : ℚ) / 100
    category := if jsTrim category = "" then "General" else jsTrim category
    note := jsTrim note }

/-- `handleAdd` of the source: a no-op when the parsed amount is not a
finite number (`none`) or is `≤ 0`; otherwise prepends the new record. -/
def handleAdd (now : ℕ) (parsedAmount : Option ℚ) (date category note : String)
    (prev : List Expense) : List Expense :=
  match parsedAmount with
  | none => prev
  | some q => if q ≤ 0 then prev else mkExpense now q date category note :: prev

/-- `handleDelete` of the source: keep exactly the records whose id
differs from the argument. -/
def handleDelete (i : String) (prev : List Expense) : List Expense :=
  prev.filter (fun e => e.id ≠ i)

/-- Decimal-digit test. -/
def isDigit (c : Char) : Bool := '0' ≤ c && c ≤ '9'

/-- Value of a decimal digit character. -/
def digitVal (c : Char) : ℕ := c.toNat - '0'.toNat

/-- Parse a nonempty all-digit character list as a natural number. -/
def digitsToNum : List Char → ℕ → Option ℕ
  | [], acc => some acc
  | c :: cs, acc =>
      if isDigit c then digitsToNum cs (acc * 10 + digitVal c) else none

/-- JavaScript `Number(s)` restricted to nonempty decimal digit strings
(the shape `String(Date.now())` produces); `none` models `NaN`. -/
def strToNum (s : String) : Option ℕ :=
  match s.data with
  | [] => none
  | cs => digitsToNum cs 0

/-- Numeric sort key of a record id used by the comparator
`(a, b) => Number(b.id) - Number(a.id)`. -/
def idNum (e : Expense) : ℕ := (strToNum e.id).getD 0

/-- The derived view of the source: records on the selected date,
sorted by descending numeric id (`sort((a, b) => Number(b.id) - Number(a.id))`). -/
def expensesForSelectedDate (expenses : List Expense) (selectedDate : String) :
    List Expense :=
  (expenses.filter (fun e => e.date = selectedDate)).mergeSort
    (fun a b => idNum b ≤ idNum a)

/-- `reduce((sum, e) => sum + e.amount, 0)` over a record list. -/
def sumAmounts (l : List Expense) : ℚ :=
  l.foldl (fun s e => s + e.amount) 0

/-- The derived total of the source: sum of the filtered view. -/
def totalForSelectedDate (expenses : List Expense) (selectedDate : String) : ℚ :=
  sumAmounts (expensesForSelectedDate expenses selectedDate)

/- Basic evaluation lemmas for the store operations. -/

theorem handleAdd_none (now : ℕ) (date category note : String)
    (prev : List Expense) : handleAdd now none date category note prev = prev := rfl

theorem handleAdd_nonpos (now : ℕ) (q : ℚ) (date category note : String)
    (prev : List Expense) (hq : q ≤ 0) :
    handleAdd now (some q) date category note prev = prev := by
  simp [handleAdd, hq]

theorem handleAdd_pos (now : ℕ) (q : ℚ) (date category note : String)
    (prev : List Expense) (hq : 0 < q) :
    handleAdd now (some q) date category note prev =
      mkExpense now q date category note :: prev := by
  simp [handleAdd, not_le.mpr hq]

theorem sumAmounts_nil : sumAmounts [] = 0 := rfl

theorem sumAmounts_foldl_init (l : List Expense) (a : ℚ) :
    l.foldl (fun s e => s + e.amount) a = a + sumAmounts l := by
  induction l generalizing a with
  | nil => simp [sumAmounts]
  | cons e t ih =>
      simp only [sumAmounts, List.foldl_cons] at *
      rw [ih, ih (0 + e.amount)]
      ring

theorem sumAmounts_cons (e : Expense) (l : List Expense) :
    sumAmounts (e :: l) = e.amount + sumAmounts l := by
  simp only [sumAmounts, List.foldl_cons]
  rw [sumAmounts_foldl_init]
  ring_nf
  rw [sumAmounts_foldl_init]
  ring

theorem sumAmounts_append (a b : List Expense) :
    sumAmounts (a ++ b) = sumAmounts a + sumAmounts b := by
  induction a with
  | nil => simp [sumAmounts_nil]
  | cons e t ih =>
      rw [List.cons_append, sumAmounts_cons, sumAmounts_cons, ih]
      ring

theorem sumAmounts_eq_map_sum (l : List Expense) :
    sumAmounts l = (l.map Expense.amount).sum := by
  induction l with
  | nil => simp [sumAmounts_nil]
  | cons e t ih => rw [sumAmounts_cons, List.map_cons, List.sum_cons, ih]

theorem sumAmounts_perm {a b : List Expense} (h : a.Perm b) :
    sumAmounts a = sumAmounts b := by
  rw [sumAmounts_eq_map_sum, sumAmounts_eq_map_sum]
  exact (h.map Expense.amount).sum_eq

/- JSON-value model of the persistence adapter. -/

/-- JSON values, as produced by `JSON.parse`. -/
inductive JValue where
  | jnull : JValue
  | jbool : Bool → JValue
  | jnum : ℚ → JValue
  | jstr : String → JValue
  | jarr : List JValue → JValue
  | jobj : List (String × JValue) → JValue

/-- The state of the storage slot as seen by the load effect:
missing (or empty, which `if (raw)` also skips), syntactically invalid
JSON (`JSON.parse` throws, caught and ignored), or a parsed JSON value. -/
inductive RawSlot where
  | absent : RawSlot
  | malformed : RawSlot
  | value : JValue → RawSlot

/-- The load effect of the source: the state only changes (from the
initial `[]`) when the slot holds a JSON array, in which case the raw
array elements are adopted as the store (the source casts them to
`Expense[]` without checking their shape). -/
def jsLoad : RawSlot → List JValue
  | RawSlot.absent => []
  | RawSlot.malformed => []
  | RawSlot.value (JValue.jarr xs) => xs
  | RawSlot.value _ => []

/-- JSON encoding of one record, as `JSON.stringify` lays it out. -/
def encodeExpense (e : Expense) : JValue :=
  JValue.jobj [("id", JValue.jstr e.id), ("date", JValue.jstr e.date),
    ("amount", JValue.jnum e.amount), ("category", JValue.jstr e.category),
    ("note", JValue.jstr e.note)]

/-- The persist effect of the source: `JSON.stringify(expenses)` written
to the slot, i.e. the slot ends up parsing to the JSON array of the
encoded records. -/
def jsSave (records : List Expense) : RawSlot :=
  RawSlot.value (JValue.jarr (records.map encodeExpense))

/-- First field with the given key, as JavaScript property lookup. -/
def jLookup (fields : List (String × JValue)) (k : String) : Option JValue :=
  match fields with
  | [] => none
  | (k2, v) :: rest => if k2 = k then some v else jLookup rest k

/-- Interpretation of a loaded JSON value as an `Expense` record:
succeeds exactly on ExpenseRecord-shaped objects (string `id`, `date`,
`category`, `note` and numeric `amount`). -/
def decodeExpense (v : JValue) : Option Expense :=
  match v with
  | JValue.jobj fields =>
      match jLookup fields "id", jLookup fields "date", jLookup fields "amount",
          jLookup fields "category", jLookup fields "note" with
      | some (JValue.jstr i), some (JValue.jstr d), some (JValue.jnum a),
          some (JValue.jstr c), some (JValue.jstr n) =>
          some { id := i, date := d, amount := a, category := c, note := n }
      | _, _, _, _, _ => none
  | _ => none

theorem decodeExpense_encodeExpense (e : Expense) :
    decodeExpense (encodeExpense e) = some e := rfl

/- Operation sequences and the store invariants. -/

/-- One user-driven mutation of the store: a form submit (with the
`parseFloat`/`isFinite` result of the amount field modelled as
`Option ℚ`) or a delete click. -/
inductive Op where
  | addOp : ℕ → Option ℚ → String → String → String → Op
  | deleteOp : String → Op

/-- Apply one operation to the store. -/
def applyOp (s : List Expense) : Op → List Expense
  | Op.addOp now p d c n => handleAdd now p d c n s
  | Op.deleteOp i => handleDelete i s

/-- Run a sequence of operations from the empty store. -/
def runOps (ops : List Op) : List Expense := ops.foldl applyOp []

/-- Leap-year test of the Gregorian calendar. -/
def isLeapYear (y : ℕ) : Bool := (y % 4 = 0 && y % 100 ≠ 0) || y % 400 = 0

/-- Number of days in a month of a given year. -/
def daysInMonth (y m : ℕ) : ℕ :=
  if m = 2 then (if isLeapYear y then 29 else 28)
  else if m = 4 || m = 6 || m = 9 || m = 11 then 30 else 31

/-- Modelled from the spec: the source has no date validator (the date
field comes from an HTML date input); this is the spec's "valid calendar
date string in `YYYY-MM-DD` form". -/
def validDate (s : String) : Bool :=
  match s.data with
  | [y1, y2, y3, y4, h1, m1, m2, h2, d1, d2] =>
      ([y1, y2, y3, y4, m1, m2, d1, d2].all isDigit) && h1 = '-' && h2 = '-' &&
      (let y := 1000 * digitVal y1 + 100 * digitVal y2 + 10 * digitVal y3 + digitVal y4
       let m := 10 * digitVal m1 + digitVal m2
       let d := 10 * digitVal d1 + digitVal d2
       1 ≤ m && m ≤ 12 && 1 ≤ d && d ≤ daysInMonth y m)
  | _ => false

/-- The store invariants of the spec: pairwise-distinct ids, strictly
positive amounts, valid dates. -/
def storeInv (s : List Expense) : Prop :=
  s.Pairwise (fun a b => a.id ≠ b.id) ∧ ∀ e ∈ s, 0 < e.amount ∧ validDate e.date = true

/-- The id an add operation would stamp on its record. -/
def addStamp : Op → Option String
  | Op.addOp now _ _ _ _ => some (toString now)
  | Op.deleteOp _ => none

/-- Side conditions under which one operation preserves the invariants:
adds carry a valid date and an amount that is either rejected (`≤ 0`) or
large enough (`≥ 1/200`) to still round to a positive number of cents. -/
def opValid : Op → Prop
  | Op.addOp _ p d _ _ =>
      validDate d = true ∧ ∀ q : ℚ, p = some q → 0 < q → 1 / 200 ≤ q
  | Op.deleteOp _ => True

/- Claim theorems. -/

/-- Claim C1: an add whose amount parses to a finite number strictly
greater than 0 prepends exactly one new record to the store (so the list
grows by one), and the new record has its amount rounded to two decimal
places (an integer number of cents, within half a cent of the parsed
amount), its category and note trimmed, and the category defaulted to
"General" when the trimmed category is empty. -/
theorem add_valid_prepends (now : ℕ) (q : ℚ) (date category note : String)
    (prev : List Expense) (hq : 0 < q) :
    ∃ r : Expense,
      handleAdd now (some q) date category note prev = r :: prev ∧
      (handleAdd now (some q) date category note prev).length = prev.length + 1 ∧
      (∃ n : ℤ, r.amount = (n : ℚ) / 100) ∧
      |r.amount - q| ≤ 1 / 200 ∧
      r.category = (if jsTrim category = "" then "General" else jsTrim category) ∧
      r.note = jsTrim note ∧ r.date = date := by
  refine ⟨mkExpense now q date category note,
    handleAdd_pos now q date category note prev hq, ?_,
    ⟨jsRound (q * 100), rfl⟩, ?_, rfl, rfl, rfl⟩
  · rw [handleAdd_pos now q date category note prev hq, List.length_cons]
  · have h1 : ((jsRound (q * 100) : ℤ) : ℚ) ≤ q * 100 + 1 / 2 := Int.floor_le _
    have h2 : q * 100 + 1 / 2 - 1 < ((jsRound (q * 100) : ℤ) : ℚ) :=
      Int.sub_one_lt_floor _
    rw [abs_sub_le_iff]
    constructor
    · show (jsRound (q * 100) : ℚ) / 100 - q ≤ 1 / 200
      linarith
    · show q - (jsRound (q * 100) : ℚ) / 100 ≤ 1 / 200
      linarith

/-- Witness for C1 at the spec's scenario: amount 12.345, blank category
and note; the stored record has amount 12.35 and category "General". -/
theorem add_valid_prepends_witness :
    (0 : ℚ) < 2469 / 200 ∧
    (∃ r : Expense,
      handleAdd 1 (some (2469 / 200)) "2024-01-01" "" "" [] = r :: [] ∧
      (handleAdd 1 (some (2469 / 200)) "2024-01-01" "" "" []).length =
        ([] : List Expense).length + 1 ∧
      (∃ n : ℤ, r.amount = (n : ℚ) / 100) ∧
      |r.amount - 2469 / 200| ≤ 1 / 200 ∧
      r.category = (if jsTrim "" = "" then "General" else jsTrim "") ∧
      r.note = jsTrim "" ∧ r.date = "2024-01-01") ∧
    handleAdd 1 (some (2469 / 200)) "2024-01-01" "" "" [] =
      [{ id := "1", date := "2024-01-01", amount := 1235 / 100,
         category := "General", note := "" }] := by
  refine ⟨by norm_num,
    add_valid_prepends 1 (2469 / 200) "2024-01-01" "" "" [] (by norm_num), ?_⟩
  rw [handleAdd_pos 1 (2469 / 200) "2024-01-01" "" "" [] (by norm_num)]
  simp only [mkExpense, List.cons.injEq, Expense.mk.injEq, and_true]
  refine ⟨by decide, trivial, ?_, by decide, by decide⟩
  rw [jsRound]
  norm_num

/-- Claim C2: an add whose amount does not parse to a finite number, or
parses to a value at most 0, is a silent no-op on the store. -/
theorem add_invalid_noop (now : ℕ) (p : Option ℚ) (date category note : String)
    (prev : List Expense)
    (h : p = none ∨ ∃ q : ℚ, p = some q ∧ q ≤ 0) :
    handleAdd now p date category note prev = prev := by
  rcases h with h | ⟨q, rfl, hq⟩
  · rw [h]
    exact handleAdd_none now date category note prev
  · exact handleAdd_nonpos now q date category note prev hq

/-- Witness for C2: adding with parsed amount 0 leaves a store unchanged. -/
theorem add_invalid_noop_witness :
    ((some (0 : ℚ) = none ∨ ∃ q : ℚ, some (0 : ℚ) = some q ∧ q ≤ 0) ∧
      handleAdd 7 (some (0 : ℚ)) "2024-01-01" "Food" "n" [] = []) :=
  ⟨Or.inr ⟨0, rfl, le_refl 0⟩,
    add_invalid_noop 7 (some 0) "2024-01-01" "Food" "n" [] (Or.inr ⟨0, rfl, le_refl 0⟩)⟩

/-- Claim C3: delete removes exactly the records carrying the given id
and no other record; when no record carries the id it is a no-op. -/
theorem delete_exact (s : List Expense) (i : String) :
    (∀ e : Expense, e ∈ handleDelete i s ↔ e ∈ s ∧ e.id ≠ i) ∧
    ((∀ e ∈ s, e.id ≠ i) → handleDelete i s = s) := by
  constructor
  · intro e
    simp [handleDelete, List.mem_filter]
  · intro h
    rw [handleDelete, List.filter_eq_self.mpr]
    intro e he
    simpa using h e he

/-- A two-record store used to exercise the delete and view theorems. -/
def sampleStore : List Expense :=
  [{ id := "2", date := "2024-01-02", amount := 5, category := "Food", note := "" },
   { id := "1", date := "2024-01-01", amount := 3, category := "Coffee", note := "x" }]

/-- Witness for C3: deleting id "1" from the sample store keeps exactly
the record with id "2". -/
theorem delete_exact_witness :
    ((∀ e : Expense, e ∈ handleDelete "1" sampleStore ↔ e ∈ sampleStore ∧ e.id ≠ "1") ∧
      ((∀ e ∈ sampleStore, e.id ≠ "1") → handleDelete "1" sampleStore = sampleStore)) ∧
    handleDelete "1" sampleStore =
      [{ id := "2", date := "2024-01-02", amount := 5, category := "Food", note := "" }] :=
  ⟨delete_exact sampleStore "1", rfl⟩

/-- Claim C10: delete removes every record whose id equals the given id,
also when several records share that id, and the remaining records keep
their relative order (the result is a sublist of the original store with
the same multiplicities on non-matching records). -/
theorem delete_all_matching_keeps_order (s : List Expense) (i : String) :
    (handleDelete i s).Sublist s ∧
    (∀ e : Expense, e ∈ handleDelete i s ↔ e ∈ s ∧ e.id ≠ i) ∧
    (∀ e : Expense, e.id ≠ i → (handleDelete i s).count e = s.count e) := by
  refine ⟨List.filter_sublist s, fun e => ?_, fun e he => ?_⟩
  · simp [handleDelete, List.mem_filter]
  · rw [handleDelete, List.count_filter]
    simpa using he

/-- A store containing two records that share the id "1". -/
def dupStore : List Expense :=
  [{ id := "1", date := "2024-01-01", amount := 2, category := "A", note := "" },
   { id := "2", date := "2024-01-01", amount := 3, category := "B", note := "" },
   { id := "1", date := "2024-01-02", amount := 4, category := "C", note := "" }]

/-- Witness for C10 on a store with duplicate ids: deleting id "1"
removes both matching records and keeps the middle one. -/
theorem delete_all_matching_keeps_order_witness :
    ((handleDelete "1" dupStore).Sublist dupStore ∧
      (∀ e : Expense, e ∈ handleDelete "1" dupStore ↔ e ∈ dupStore ∧ e.id ≠ "1") ∧
      (∀ e : Expense, e.id ≠ "1" →
        (handleDelete "1" dupStore).count e = dupStore.count e)) ∧
    handleDelete "1" dupStore =
      [{ id := "2", date := "2024-01-01", amount := 3, category := "B", note := "" }] :=
  ⟨delete_all_matching_keeps_order dupStore "1", rfl⟩

/-- Claim C4: the derived per-date view contains exactly the records
whose date equals the selected date (as a permutation of the filtered
store) and is ordered by descending numeric id, i.e. newest-first; it is
stated for stores whose ids are decimal digit strings, the shape
`String(Date.now())` produces. -/
theorem filterByDate_exact_sorted (s : List Expense) (d : String)
    (_hnum : ∀ e ∈ s, (strToNum e.id).isSome = true) :
    (∀ e : Expense, e ∈ expensesForSelectedDate s d ↔ e ∈ s ∧ e.date = d) ∧
    (expensesForSelectedDate s d).Perm (s.filter (fun e => e.date = d)) ∧
    (expensesForSelectedDate s d).Sorted (fun a b => idNum b ≤ idNum a) := by
  refine ⟨fun e => ?_, List.mergeSort_perm _ _, ?_⟩
  · rw [expensesForSelectedDate, List.mem_mergeSort, List.mem_filter]
    simp
  · have h := @List.sorted_mergeSort Expense
      (fun a b : Expense => decide (idNum b ≤ idNum a))
      (fun a b c hab hbc => by
        simp only [decide_eq_true_eq] at *
        omega)
      (fun a b => by
        simp only [Bool.or_eq_true, decide_eq_true_eq]
        omega)
      (s.filter (fun e => e.date = d))
    exact h.imp (fun hab => of_decide_eq_true hab)

/-- Witness for C4 on the sample store: the view for 2024-01-01 holds
exactly the record with id "1". -/
theorem filterByDate_exact_sorted_witness :
    (∀ e ∈ sampleStore, (strToNum e.id).isSome = true) ∧
    ((∀ e : Expense,
        e ∈ expensesForSelectedDate sampleStore "2024-01-01" ↔
          e ∈ sampleStore ∧ e.date = "2024-01-01") ∧
      (expensesForSelectedDate sampleStore "2024-01-01").Perm
        (sampleStore.filter (fun e => e.date = "2024-01-01")) ∧
      (expensesForSelectedDate sampleStore "2024-01-01").Sorted
        (fun a b => idNum b ≤ idNum a)) :=
  ⟨by decide, filterByDate_exact_sorted sampleStore "2024-01-01" (by decide)⟩

/-- Claim C9: the derived-view functions are pure: two runs on equal
inputs (same store snapshot, same selected date) return equal results;
the embedding is functional, so neither run can mutate its inputs. -/
theorem derived_views_deterministic (s₁ s₂ : List Expense) (d₁ d₂ : String)
    (hs : s₁ = s₂) (hd : d₁ = d₂) :
    expensesForSelectedDate s₁ d₁ = expensesForSelectedDate s₂ d₂ ∧
    totalForSelectedDate s₁ d₁ = totalForSelectedDate s₂ d₂ := by
  subst hs
  subst hd
  exact ⟨rfl, rfl⟩

/-- Witness for C9 at the sample store and date 2024-01-01. -/
theorem derived_views_deterministic_witness :
    expensesForSelectedDate sampleStore "2024-01-01" =
      expensesForSelectedDate sampleStore "2024-01-01" ∧
    totalForSelectedDate sampleStore "2024-01-01" =
      totalForSelectedDate sampleStore "2024-01-01" :=
  derived_views_deterministic sampleStore sampleStore "2024-01-01" "2024-01-01" rfl rfl

/-- The spec's two-add scenario: amounts 10.00 and 5.50 on one date. -/
def scenarioStore : List Expense :=
  handleAdd 2 (some (11 / 2)) "2024-03-05" "Coffee" ""
    (handleAdd 1 (some 10) "2024-03-05" "Food" "" [])

/-- Claim C5: the sum of the empty record sequence is 0, the sum is
additive over concatenation, and for the scenario of two records on one
date with amounts 10.00 and 5.50 the derived total on that date
is 15.50. -/
theorem sum_zero_additive :
    sumAmounts [] = 0 ∧
    (∀ a b : List Expense, sumAmounts (a ++ b) = sumAmounts a + sumAmounts b) ∧
    totalForSelectedDate scenarioStore "2024-03-05" = 31 / 2 := by
  refine ⟨rfl, sumAmounts_append, ?_⟩
  have hstore : scenarioStore =
      [mkExpense 2 (11 / 2) "2024-03-05" "Coffee" "",
       mkExpense 1 10 "2024-03-05" "Food" ""] := by
    rw [scenarioStore, handleAdd_pos 1 10 "2024-03-05" "Food" "" [] (by norm_num),
        handleAdd_pos 2 (11 / 2) "2024-03-05" "Coffee" "" _ (by norm_num)]
  rw [totalForSelectedDate, expensesForSelectedDate,
      sumAmounts_perm (List.mergeSort_perm _ _), hstore,
      List.filter_cons_of_pos (by rfl), List.filter_cons_of_pos (by rfl),
      List.filter_nil, sumAmounts_cons, sumAmounts_cons, sumAmounts_nil]
  simp only [mkExpense, jsRound]
  norm_num

/-- Claim C7 (amended): the load effect never raises: it yields the
empty sequence when the slot is absent, when its content is not valid
JSON, and when it parses to a non-array JSON value; but a JSON array is
adopted as-is, whatever the shape of its elements. -/
theorem load_total_amended :
    jsLoad RawSlot.absent = [] ∧
    jsLoad RawSlot.malformed = [] ∧
    (∀ v : JValue, (∀ xs : List JValue, v ≠ JValue.jarr xs) →
      jsLoad (RawSlot.value v) = []) ∧
    (∀ xs : List JValue, jsLoad (RawSlot.value (JValue.jarr xs)) = xs) := by
  refine ⟨rfl, rfl, fun v hv => ?_, fun _ => rfl⟩
  cases v with
  | jarr xs => exact absurd rfl (hv xs)
  | jnull => rfl
  | jbool b => rfl
  | jnum q => rfl
  | jstr s => rfl
  | jobj fields => rfl

/-- Witness for C7 (amended): a JSON object in the slot loads as the
empty store. -/
theorem load_total_amended_witness :
    ((JValue.jobj [("a", JValue.jnum 1)]) ≠ JValue.jarr ([] : List JValue)) ∧
    jsLoad (RawSlot.value (JValue.jobj [("a", JValue.jnum 1)])) = [] :=
  ⟨fun h => JValue.noConfusion h,
    (load_total_amended.2.2.1 (JValue.jobj [("a", JValue.jnum 1)])
      (fun _ h => JValue.noConfusion h))⟩

/-- Counterexample to C7 as stated: a stored JSON array whose single
element is the number 1 is not a sequence of ExpenseRecord-shaped
values, yet the load effect adopts it unchanged instead of yielding the
empty sequence. -/
theorem load_shape_counterexample :
    decodeExpense (JValue.jnum 1) = none ∧
    jsLoad (RawSlot.value (JValue.jarr [JValue.jnum 1])) = [JValue.jnum 1] ∧
    jsLoad (RawSlot.value (JValue.jarr [JValue.jnum 1])) ≠ [] :=
  ⟨rfl, rfl, fun h => List.noConfusion h⟩

/-- Claim C8: persistence round-trip: saving a record sequence stores
the JSON array of its encodings, and loading it back yields values that
decode to exactly the original records, in the original order. -/
theorem load_save_roundtrip (records : List Expense) :
    jsLoad (jsSave records) = records.map encodeExpense ∧
    (jsLoad (jsSave records)).map decodeExpense = records.map some := by
  refine ⟨rfl, ?_⟩
  rw [show jsLoad (jsSave records) = records.map encodeExpense from rfl,
      List.map_map]
  exact List.map_congr_left (fun e _ => decodeExpense_encodeExpense e)

/- Claim C6: invariant preservation along operation sequences. -/

theorem storeInv_handleDelete (i : String) (s : List Expense) (hs : storeInv s) :
    storeInv (handleDelete i s) :=
  ⟨hs.1.sublist (List.filter_sublist s),
    fun e he => hs.2 e ((List.filter_sublist s).subset he)⟩

theorem runAux_invariants (ops : List Op) (s : List Expense)
    (hs : storeInv s)
    (hdisj : ∀ i ∈ ops.filterMap addStamp, ∀ e ∈ s, e.id ≠ i)
    (hnodup : (ops.filterMap addStamp).Nodup)
    (hvalid : ∀ op ∈ ops, opValid op) :
    storeInv (ops.foldl applyOp s) := by
  induction ops generalizing s with
  | nil => exact hs
  | cons op tl ih =>
      rw [List.foldl_cons]
      cases op with
      | deleteOp i =>
          have hfm : (Op.deleteOp i :: tl).filterMap addStamp
              = tl.filterMap addStamp := by simp [addStamp]
          rw [hfm] at hdisj hnodup
          exact ih (applyOp s (Op.deleteOp i))
            (storeInv_handleDelete i s hs)
            (fun j hj e he => hdisj j hj e ((List.filter_sublist s).subset he))
            hnodup
            (fun o ho => hvalid o (List.mem_cons_of_mem _ ho))
      | addOp now p d c n =>
          have hvo : opValid (Op.addOp now p d c n) :=
            hvalid _ (List.mem_cons_self _ _)
          obtain ⟨hdate, hamt⟩ := hvo
          have hfm : (Op.addOp now p d c n :: tl).filterMap addStamp
              = toString now :: tl.filterMap addStamp := by simp [addStamp]
          rw [hfm] at hdisj hnodup
          have hdisjTl : ∀ i ∈ tl.filterMap addStamp, ∀ e ∈ s, e.id ≠ i :=
            fun j hj e he => hdisj j (List.mem_cons_of_mem _ hj) e he
          have hvalidTl : ∀ o ∈ tl, opValid o :=
            fun o ho => hvalid o (List.mem_cons_of_mem _ ho)
          cases p with
          | none =>
              exact ih s hs hdisjTl (List.nodup_cons.mp hnodup).2 hvalidTl
          | some q =>
              by_cases hq : q ≤ 0
              · have : applyOp s (Op.addOp now (some q) d c n) = s := by
                  rw [applyOp]
                  exact handleAdd_nonpos now q d c n s hq
                rw [this]
                exact ih s hs hdisjTl (List.nodup_cons.mp hnodup).2 hvalidTl
              · have hqpos : 0 < q := lt_of_not_le hq
                have hstep : applyOp s (Op.addOp now (some q) d c n)
                    = mkExpense now q d c n :: s := by
                  rw [applyOp]
                  exact handleAdd_pos now q d c n s hqpos
                rw [hstep]
                refine ih (mkExpense now q d c n :: s) ⟨?_, ?_⟩ ?_
                  (List.nodup_cons.mp hnodup).2 hvalidTl
                · refine List.Pairwise.cons (fun e he => ?_) hs.1
                  intro heq
                  exact hdisj (toString now) (List.mem_cons_self _ _) e he heq.symm
                · intro e he
                  rcases List.mem_cons.mp he with he | he
                  · subst he
                    constructor
                    · have h1 : (1 : ℤ) ≤ jsRound (q * 100) := by
                        rw [jsRound]
                        apply Int.le_floor.mpr
                        have h200 := hamt q rfl hqpos
                        push_cast
                        linarith
                      have h2 : (1 : ℚ) ≤ (jsRound (q * 100) : ℚ) := by
                        exact_mod_cast h1
                      show 0 < (jsRound (q * 100) : ℚ) / 100
                      have h3 : (0 : ℚ) < (jsRound (q * 100) : ℚ) :=
                        lt_of_lt_of_le zero_lt_one h2
                      exact div_pos h3 (by norm_num)
                    · exact hdate
                  · exact hs.2 e he
                · intro j hj e he
                  rcases List.mem_cons.mp he with he | he
                  · subst he
                    intro heq
                    have hjj : toString now ∈ tl.filterMap addStamp := by
                      rw [show toString now = j from heq]
                      exact hj
                    exact (List.nodup_cons.mp hnodup).1 hjj
                  · exact hdisjTl j hj e he

/-- Claim C6 (amended): every store state reachable from the empty store
by a sequence of add and delete operations satisfies the invariants
(pairwise-distinct ids, strictly positive amounts, valid dates),
provided no two adds share a creation timestamp, every add carries a
valid date, and every accepted amount is at least 1/200 (so that
rounding to cents cannot produce 0). -/
theorem reachable_invariants_amended (ops : List Op)
    (hnodup : (ops.filterMap addStamp).Nodup)
    (hvalid : ∀ op ∈ ops, opValid op) :
    storeInv (runOps ops) :=
  runAux_invariants ops []
    ⟨List.Pairwise.nil, fun e he => absurd he (List.not_mem_nil e)⟩
    (fun _ _ e he => absurd he (List.not_mem_nil e))
    hnodup hvalid

/-- A well-behaved operation sequence: two adds at distinct timestamps
with valid dates and amounts, and a delete in between. -/
def okOps : List Op :=
  [Op.addOp 1 (some 10) "2024-01-01" "Food" "",
   Op.deleteOp "1",
   Op.addOp 2 (some (11 / 2)) "2024-02-29" "" ""]

/-- Witness for C6 (amended) on a concrete operation sequence. -/
theorem reachable_invariants_amended_witness :
    (okOps.filterMap addStamp).Nodup ∧ (∀ op ∈ okOps, opValid op) ∧
    storeInv (runOps okOps) := by
  have h1 : (okOps.filterMap addStamp).Nodup := by decide
  have h2 : ∀ op ∈ okOps, opValid op := by
    intro op hop
    rcases List.mem_cons.mp hop with rfl | hop
    · refine ⟨by decide, fun q hq hq0 => ?_⟩
      obtain rfl := Option.some.inj hq
      norm_num
    rcases List.mem_cons.mp hop with rfl | hop
    · exact trivial
    rcases List.mem_cons.mp hop with rfl | hop
    · refine ⟨by decide, fun q hq hq0 => ?_⟩
      obtain rfl := Option.some.inj hq
      norm_num
    exact absurd hop (List.not_mem_nil op)
  exact ⟨h1, h2, reachable_invariants_amended okOps h1 h2⟩

/-- Two adds in the same millisecond (`Date.now()` tick 5), the first
with amount 0.001: a reachable store violating the claimed invariants. -/
def badOps : List Op :=
  [Op.addOp 5 (some (1 / 1000)) "2024-01-01" "A" "",
   Op.addOp 5 (some 1) "2024-01-01" "B" ""]

/-- Counterexample to C6 as stated: the store reached by `badOps` from
the empty store has two records with the same id "5", and its older
record has amount 0 (0.001 rounds to 0 cents), so the invariants fail on
a reachable state. -/
theorem reachable_invariants_counterexample :
    ¬ storeInv (runOps badOps) ∧ ∃ e ∈ runOps badOps, e.amount = 0 := by
  have heval : runOps badOps =
      [mkExpense 5 1 "2024-01-01" "B" "",
       mkExpense 5 (1 / 1000) "2024-01-01" "A" ""] := by
    rw [runOps]
    simp only [badOps, List.foldl_cons, List.foldl_nil, applyOp]
    rw [handleAdd_pos 5 (1 / 1000) "2024-01-01" "A" "" [] (by norm_num),
        handleAdd_pos 5 1 "2024-01-01" "B" "" _ (by norm_num)]
  have hzero : (mkExpense 5 (1 / 1000) "2024-01-01" "A" "").amount = 0 := by
    show ((jsRound ((1 : ℚ) / 1000 * 100) : ℤ) : ℚ) / 100 = 0
    rw [jsRound]
    norm_num
  constructor
  · intro h
    rw [heval] at h
    have hne := List.rel_of_pairwise_cons h.1 (List.mem_singleton.mpr rfl)
    exact hne rfl
  · refine ⟨mkExpense 5 (1 / 1000) "2024-01-01" "A" "", ?_, hzero⟩
    rw [heval]
    exact List.mem_cons_of_mem _ (List.mem_singleton.mpr rfl)
